import Mathlib

/-!
Verification of the askBetterAgent repository (askBetterAgentCLI.py,
askBetterAgentST.py) against its natural-language specification.

The development shallowly embeds the deterministic core of the program:
  * the `pii_scan` tool (three Python regular expressions run with
    `re.search`), embedded via a small complete matcher for the regex
    fragment the program uses (character classes, concatenation, `?`,
    star over a character class, and the word-boundary assertion `\b`);
  * the pydantic models `ScoresModel`, `RewritesModel`,
    `ClassificationModel`, `QuestionReview` and their field constraints,
    embedded as validators returning `Option`;
  * the ground-truth correction step of the runner (`main` in the CLI,
    the `run_btn` handler in the Streamlit app);
  * the startup credential check and the empty-input guards of the two
    front ends.
-/

namespace AskBetter

/-! ## Character classes

Python's `\w`, `\d`, `\s` are Unicode-aware; the inputs verified here are
ASCII, on which the classes below coincide with Python's. -/

/-- Python regex `\w` (word character), ASCII fragment: `[A-Za-z0-9_]`. -/
def isWordChar (c : Char) : Bool := c.isAlphanum || c = '_'

/-- Python regex `\d` (decimal digit), ASCII fragment: `[0-9]`. -/
def isDigitChar (c : Char) : Bool := c.isDigit

/-- Python regex `\s` (whitespace), ASCII fragment; also the character
set trimmed by Python's `str.strip()`. -/
def isPySpace (c : Char) : Bool :=
  c = ' ' || c = '\t' || c = '\n' || c = '\r' || c = '\x0b' || c = '\x0c'

/-! ## Regex fragment and matcher

The three patterns in `pii_scan` use only: character classes,
concatenation, `X?`, unbounded repetition of a character class
(`[...]*` / `[...]+` / `\w{2,}`), bounded repetition (expanded into
concatenations of copies and `?`-copies), and the zero-width assertion
`\b`.  `RE` is exactly that fragment.

`matchRE` enumerates every way a regex can consume a prefix of the
input; a state is the pair (last consumed character, remaining input) —
the last consumed character is what `\b` needs.  `re.search(p, s)` is
truthy iff `p` can match starting at some position of `s`, i.e. iff
`matchRE` returns a nonempty state list from some suffix; greedy versus
lazy repetition only selects among matches and never affects whether one
exists, so the enumeration is a faithful model of `re.search` truthiness. -/

inductive RE where
  | eps : RE
  | cls : (Char → Bool) → RE
  | seq : RE → RE → RE
  | opt : RE → RE
  | star : (Char → Bool) → RE
  | wb : RE

/-- Word-boundary test: `\b` holds between the previously consumed
character (none at the start of the string) and the next input
character (none at the end). -/
def atBoundary (prev : Option Char) (input : List Char) : Bool :=
  (match prev with | none => false | some c => isWordChar c)
    != (match input with | [] => false | c :: _ => isWordChar c)

/-- All states reachable by consuming zero or more characters of class
`p` (the star of a character class). -/
def starSplits (p : Char → Bool) : Option Char → List Char →
    List (Option Char × List Char)
  | prev, [] => [(prev, [])]
  | prev, c :: rest =>
      (prev, c :: rest) :: (if p c then starSplits p (some c) rest else [])

/-- Complete matcher: every state `(last consumed char, rest)` reachable
by matching `r` against a prefix of the input. -/
def matchRE : RE → Option Char → List Char → List (Option Char × List Char)
  | .eps, prev, input => [(prev, input)]
  | .cls _, _, [] => []
  | .cls p, _, c :: rest => if p c then [(some c, rest)] else []
  | .seq a b, prev, input =>
      (matchRE a prev input).flatMap fun st => matchRE b st.1 st.2
  | .opt a, prev, input => (prev, input) :: matchRE a prev input
  | .star p, prev, input => starSplits p prev input
  | .wb, prev, input => if atBoundary prev input then [(prev, input)] else []

/-- `re.search` truthiness from a given position: the pattern matches at
this position or at some later one. -/
def searchAux (r : RE) : Option Char → List Char → Bool
  | prev, [] => !(matchRE r prev []).isEmpty
  | prev, c :: rest =>
      !(matchRE r prev (c :: rest)).isEmpty || searchAux r (some c) rest

/-- Truthiness of Python `re.search(r, s)`. -/
def reSearch (r : RE) (s : String) : Bool := searchAux r none s.data

/-! ## The three patterns of `pii_scan` -/

/-- `X+` = `X X*` for a character class. -/
def plus (p : Char → Bool) : RE := .seq (.cls p) (.star p)

/-- Literal single character. -/
def chr (c : Char) : RE := .cls (fun d => d = c)

/-- Concatenation of a list of regexes. -/
def seqs : List RE → RE
  | [] => .eps
  | [r] => r
  | r :: rs => .seq r (seqs rs)

/-- `X{n}`: n concatenated copies. -/
def copies (r : RE) : Nat → RE
  | 0 => .eps
  | n + 1 => .seq r (copies r n)

/-- Character class `[\w\.-]` of the email pattern. -/
def emailChar (c : Char) : Bool := isWordChar c || c = '.' || c = '-'

/-- Separator class `[-.\s]` of the phone pattern. -/
def phoneSep (c : Char) : Bool := c = '-' || c = '.' || isPySpace c

/-- Separator class `[ -]` of the card pattern. -/
def cardSep (c : Char) : Bool := c = ' ' || c = '-'

/-- `\b[\w\.-]+@[\w\.-]+\.\w{2,}\b` (the `email` pattern), with
`\w{2,}` written as `\w\w\w*`. -/
def emailRE : RE :=
  seqs [.wb, plus emailChar, chr '@', plus emailChar, chr '.',
        .cls isWordChar, .cls isWordChar, .star isWordChar, .wb]

/-- The phone pattern's optional country-code group
`(?:\+?\d{1,3}[-.\s]?)`, with `\d{1,3}` written as `\d\d?\d?`. -/
def phoneCountry : RE :=
  seqs [.opt (chr '+'), .cls isDigitChar,
        .opt (.cls isDigitChar), .opt (.cls isDigitChar),
        .opt (.cls phoneSep)]

/-- The phone pattern's optional area-code group `(?:\(?\d{3}\)?[-.\s]?)`. -/
def phoneArea : RE :=
  seqs [.opt (chr '('), copies (.cls isDigitChar) 3,
        .opt (chr ')'), .opt (.cls phoneSep)]

/-- `\b(?:\+?\d{1,3}[-.\s]?)?(?:\(?\d{3}\)?[-.\s]?)?\d{3}[-.\s]?\d{4}\b`
(the `phone` pattern). -/
def phoneRE : RE :=
  seqs [.wb, .opt phoneCountry, .opt phoneArea,
        copies (.cls isDigitChar) 3, .opt (.cls phoneSep),
        copies (.cls isDigitChar) 4, .wb]

/-- The repeated group `(?:\d[ -]*?)` of the card pattern (laziness of
`[ -]*?` does not affect match existence). -/
def cardGroup : RE := .seq (.cls isDigitChar) (.star cardSep)

/-- `\b(?:\d[ -]*?){13,16}\b` (the `card-ish` pattern), with `{13,16}`
written as thirteen copies followed by three optional copies. -/
def cardRE : RE :=
  seqs [.wb, copies cardGroup 13,
        .opt cardGroup, .opt cardGroup, .opt cardGroup, .wb]

/-- The `pii_scan` tool: appends `"email"`, `"phone"`, `"card-ish"` in
that order, one per pattern that `re.search` finds in the text. -/
def pii_scan (text : String) : List String :=
  (if reSearch emailRE text then ["email"] else []) ++
  (if reSearch phoneRE text then ["phone"] else []) ++
  (if reSearch cardRE text then ["card-ish"] else [])

/-! ## Pydantic models

pydantic validates each field at construction and either stores the
value unchanged or rejects the whole record; this is embedded as
per-field validators returning `Option`, composed with `bind`.  Field
constraints are exactly the ones written in the source:
`Field(ge=0, le=10)` on the four scores, `Field(max_length=280)` on the
two rewrites, `Literal[...]` on the two classification axes — and no
constraint at all on the four list fields. -/

/-- `Literal["coding","data","business","other"]`. -/
inductive Domain where
  | coding | data | business | other
deriving DecidableEq, Repr

/-- `Literal["how-to","debug","design","fact","other"]`. -/
inductive QType where
  | howTo | debug | design | fact | other
deriving DecidableEq, Repr

/-- Validation of the `domain` literal. -/
def parseDomain : String → Option Domain
  | "coding" => some .coding
  | "data" => some .data
  | "business" => some .business
  | "other" => some .other
  | _ => none

/-- Validation of the `type` literal. -/
def parseQType : String → Option QType
  | "how-to" => some .howTo
  | "debug" => some .debug
  | "design" => some .design
  | "fact" => some .fact
  | "other" => some .other
  | _ => none

structure ClassificationModel where
  domain : Domain
  type : QType
deriving DecidableEq, Repr

structure ScoresModel where
  clarity : Int
  specificity : Int
  answerability : Int
  safety : Int
deriving DecidableEq, Repr

structure RewritesModel where
  minimal : String
  ideal : String
deriving DecidableEq, Repr

structure QuestionReview where
  original_question : String
  missing_info : List String
  assumptions : List String
  followups : List String
  flags : List String
  classification : ClassificationModel
  scores : ScoresModel
  rewrites : RewritesModel
deriving DecidableEq, Repr

/-- `Field(..., ge=0, le=10)`: accept the integer unchanged iff it lies
in [0, 10]. -/
def validScore (n : Int) : Option Int :=
  if 0 ≤ n ∧ n ≤ 10 then some n else none

/-- Construction/validation of `ScoresModel`. -/
def mkScoresModel (clarity specificity answerability safety : Int) :
    Option ScoresModel := do
  let c ← validScore clarity
  let s ← validScore specificity
  let a ← validScore answerability
  let f ← validScore safety
  pure { clarity := c, specificity := s, answerability := a, safety := f }

/-- `Field(max_length=280)` on a `str`: accept the string unchanged iff
its length in code points is at most 280 (Python `len`). -/
def validRewrite (s : String) : Option String :=
  if s.length ≤ 280 then some s else none

/-- Construction/validation of `RewritesModel`. -/
def mkRewritesModel (minimal ideal : String) : Option RewritesModel := do
  let m ← validRewrite minimal
  let i ← validRewrite ideal
  pure { minimal := m, ideal := i }

/-- A candidate record as produced by the backend, before schema
validation: enum axes still raw strings, scores raw integers. -/
structure RawReview where
  original_question : String
  missing_info : List String
  assumptions : List String
  followups : List String
  flags : List String
  domain : String
  type : String
  clarity : Int
  specificity : Int
  answerability : Int
  safety : Int
  minimal : String
  ideal : String
deriving DecidableEq, Repr

/-- Schema validation of a candidate `QuestionReview`: every constraint
pydantic checks on the source models, and only those — the four list
fields are plain `list[str]` and are stored verbatim. -/
def mkQuestionReview (raw : RawReview) : Option QuestionReview := do
  let d ← parseDomain raw.domain
  let t ← parseQType raw.type
  let sc ← mkScoresModel raw.clarity raw.specificity raw.answerability raw.safety
  let rw ← mkRewritesModel raw.minimal raw.ideal
  pure { original_question := raw.original_question,
         missing_info := raw.missing_info,
         assumptions := raw.assumptions,
         followups := raw.followups,
         flags := raw.flags,
         classification := { domain := d, type := t },
         scores := sc,
         rewrites := rw }

/-! ## Runner post-processing and front-end guards -/

/-- Python `str.strip()`: remove leading and trailing whitespace. -/
def pyStrip (s : String) : String :=
  ⟨((s.data.dropWhile isPySpace).reverse.dropWhile isPySpace).reverse⟩

/-- Ground-truth enforcement, identical in `main` (CLI) and the
`run_btn` handler (Streamlit): if the echoed `original_question`
differs from the user input after stripping both, replace it with the
literal user input. -/
def enforceGroundTruth (user_question : String) (out : QuestionReview) :
    QuestionReview :=
  if pyStrip out.original_question ≠ pyStrip user_question then
    { out with original_question := user_question }
  else
    out

/-- Python truthiness of an optional string (`os.getenv` result):
`None` and `""` are falsy. -/
def truthy : Option String → Bool
  | none => false
  | some s => s ≠ ""

/-- Outcome of one CLI process run. -/
inductive CliOutcome where
  | configError
  | noQuestionExit
  | backendCall (q : String)
deriving DecidableEq, Repr

/-- The CLI process: the `OPENAI_API_KEY` check at import time
(`raise ValueError` on a falsy key, before any input is read), then the
`__main__` block — join argv with spaces and strip; if empty, fall back
to the interactive prompt (stripped); if still empty, print a message
and `SystemExit(1)`; otherwise run the agent on the question. -/
def cliProcess (env_key : Option String) (argv : List String)
    (interactive : String) : CliOutcome :=
  if truthy env_key then
    let user_q := pyStrip (String.intercalate " " argv)
    let user_q := if user_q = "" then pyStrip interactive else user_q
    if user_q = "" then .noQuestionExit else .backendCall user_q
  else
    .configError

/-- Outcome of one Streamlit `run_btn` press. -/
inductive StOutcome where
  | configError
  | warnAndHalt
  | backendCall (q : String)
deriving DecidableEq, Repr

/-- `st.secrets.get("OPENAI_API_KEY", os.getenv("OPENAI_API_KEY"))`:
the secrets value when present, else the environment value. -/
def stKey (secrets env_key : Option String) : Option String :=
  match secrets with
  | some v => some v
  | none => env_key

/-- The Streamlit app on an Analyze press: the startup key check
(`st.error` + `st.stop()` on a falsy key, before any input handling),
then the `run_btn` handler — warn and `st.stop()` when the input strips
to empty, otherwise run the agent on the (unstripped) input. -/
def stProcess (secrets env_key : Option String) (user_q : String) :
    StOutcome :=
  if truthy (stKey secrets env_key) then
    if pyStrip user_q = "" then .warnAndHalt else .backendCall user_q
  else
    .configError

/-- Every character of the list is a decimal digit. -/
def allDigits (l : List Char) : Prop := ∀ c ∈ l, isDigitChar c

/-! ## Concrete sample records (used by witnesses and counterexamples) -/

/-- A backend candidate satisfying every schema constraint. -/
def rawSample : RawReview :=
  { original_question := "How do I index a JSONB column in Postgres?",
    missing_info := ["Postgres version"],
    assumptions := ["Using Postgres 15"],
    followups := ["Which operators do you query with?"],
    flags := [],
    domain := "coding", type := "how-to",
    clarity := 7, specificity := 6, answerability := 8, safety := 10,
    minimal := "How do I index a JSONB column in Postgres?",
    ideal := "What index type should I use for a JSONB column in Postgres 15?" }

/-- The validated record produced from `rawSample`. -/
def reviewSample : QuestionReview :=
  { original_question := "How do I index a JSONB column in Postgres?",
    missing_info := ["Postgres version"],
    assumptions := ["Using Postgres 15"],
    followups := ["Which operators do you query with?"],
    flags := [],
    classification := { domain := .coding, type := .howTo },
    scores := { clarity := 7, specificity := 6, answerability := 8, safety := 10 },
    rewrites := { minimal := "How do I index a JSONB column in Postgres?",
                  ideal := "What index type should I use for a JSONB column in Postgres 15?" } }

/-- A backend candidate whose three lists exceed the caps stated in the
specification (7, 7 and 6 entries) but that satisfies every constraint
the source models actually declare. -/
def rawOverlong : RawReview :=
  { rawSample with
    missing_info := ["a", "b", "c", "d", "e", "f", "g"],
    assumptions := ["h", "i", "j", "k", "l", "m", "n"],
    followups := ["o", "p", "q", "r", "s", "t"] }

/-! ## Theorems -/

/-! ### Matcher lemmas for the all-digit-run arguments

These support the general form of the 17-digit claim: on input that is
nothing but decimal digits, the email pattern cannot consume its
mandatory `@`, the phone pattern consumes at most 13 characters, and
the card pattern consumes between 13 and 16 — while the leading and
trailing `\b` anchors confine any match to the whole run. -/

theorem starSplits_suffix (p : Char → Bool) :
    ∀ (prev : Option Char) (input : List Char) st,
      st ∈ starSplits p prev input → st.2 <:+ input := by
  intro prev input
  induction input generalizing prev with
  | nil =>
    intro st h
    simp [starSplits] at h
    simp [h]
  | cons c rest ih =>
    intro st h
    simp only [starSplits, List.mem_cons] at h
    rcases h with h | h
    · simp [h]
    · split_ifs at h with hc
      · exact (ih (some c) st h).trans (List.suffix_cons c rest)
      · simp at h

theorem matchRE_suffix : ∀ (r : RE) (prev : Option Char) (input : List Char) st,
    st ∈ matchRE r prev input → st.2 <:+ input := by
  intro r
  induction r with
  | eps =>
    intro prev input st h
    simp [matchRE] at h
    simp [h]
  | cls p =>
    intro prev input st h
    cases input with
    | nil => simp [matchRE] at h
    | cons c rest =>
      simp only [matchRE] at h
      split_ifs at h with hc
      · simp at h
        simp [h, List.suffix_cons]
      · simp at h
  | seq a b iha ihb =>
    intro prev input st h
    simp only [matchRE, List.mem_flatMap] at h
    obtain ⟨st1, h1, h2⟩ := h
    exact (ihb st1.1 st1.2 st h2).trans (iha prev input st1 h1)
  | opt a iha =>
    intro prev input st h
    simp only [matchRE, List.mem_cons] at h
    rcases h with h | h
    · simp [h]
    · exact iha prev input st h
  | star p =>
    intro prev input st h
    exact starSplits_suffix p prev input st h
  | wb =>
    intro prev input st h
    simp only [matchRE] at h
    split_ifs at h with hb
    · simp at h
      simp [h]
    · simp at h

theorem allDigits_of_suffix {l rest : List Char} (h : rest <:+ l)
    (hd : allDigits l) : allDigits rest :=
  fun c hc => hd c (h.subset hc)

theorem matchRE_seq_mem (a b : RE) (prev : Option Char) (input : List Char) (st) :
    st ∈ matchRE (.seq a b) prev input ↔
      ∃ st1 ∈ matchRE a prev input, st ∈ matchRE b st1.1 st1.2 := by
  simp [matchRE, List.mem_flatMap]

theorem matchRE_opt_mem (a : RE) (prev : Option Char) (input : List Char) (st) :
    st ∈ matchRE (.opt a) prev input ↔
      st = (prev, input) ∨ st ∈ matchRE a prev input := by
  simp [matchRE]

theorem matchRE_wb_mem (prev : Option Char) (input : List Char) (st)
    (h : st ∈ matchRE .wb prev input) :
    st = (prev, input) ∧ atBoundary prev input = true := by
  simp only [matchRE] at h
  split_ifs at h with hb
  · simp at h
    exact ⟨h, hb⟩
  · simp at h

theorem matchRE_cls_mem (p : Char → Bool) (prev : Option Char) (input : List Char) (st)
    (h : st ∈ matchRE (.cls p) prev input) :
    ∃ c rest, input = c :: rest ∧ p c = true ∧ st = (some c, rest) := by
  cases input with
  | nil => simp [matchRE] at h
  | cons c rest =>
    simp only [matchRE] at h
    split_ifs at h with hc
    · simp at h
      exact ⟨c, rest, rfl, hc, h⟩
    · simp at h

theorem matchRE_cls_nondigit (p : Char → Bool)
    (hp : ∀ c, isDigitChar c → p c = false) (prev : Option Char)
    (input : List Char) (had : allDigits input) :
    matchRE (.cls p) prev input = [] := by
  cases input with
  | nil => rfl
  | cons c rest =>
    have := hp c (had c (List.mem_cons_self c rest))
    simp [matchRE, this]

theorem starSplits_nondigit (p : Char → Bool)
    (hp : ∀ c, isDigitChar c → p c = false) (prev : Option Char)
    (input : List Char) (had : allDigits input) :
    starSplits p prev input = [(prev, input)] := by
  cases input with
  | nil => rfl
  | cons c rest =>
    have := hp c (had c (List.mem_cons_self c rest))
    simp [starSplits, this]

theorem isWordChar_of_digit {c : Char} (h : isDigitChar c) : isWordChar c = true := by
  simp only [isWordChar, Char.isAlphanum, Bool.or_eq_true]
  left; right
  exact h

theorem atBoundary_digit_digit {c d : Char} (hc : isDigitChar c) (hd : isDigitChar d)
    (rest : List Char) : atBoundary (some c) (d :: rest) = false := by
  simp [atBoundary, isWordChar_of_digit hc, isWordChar_of_digit hd]

theorem atBoundary_digit_nil {c : Char} (hc : isDigitChar c) :
    atBoundary (some c) [] = true := by
  simp [atBoundary, isWordChar_of_digit hc]

theorem digit_ne {c d : Char} (hc : isDigitChar c) (hd : isDigitChar d = false) :
    c ≠ d := by
  rintro rfl
  simp [hd] at hc

theorem phoneSep_nondigit : ∀ c, isDigitChar c → phoneSep c = false := by
  intro c hc
  have h1 : c ≠ '-' := digit_ne hc (by decide)
  have h2 : c ≠ '.' := digit_ne hc (by decide)
  have h3 : c ≠ ' ' := digit_ne hc (by decide)
  have h4 : c ≠ '\t' := digit_ne hc (by decide)
  have h5 : c ≠ '\n' := digit_ne hc (by decide)
  have h6 : c ≠ '\r' := digit_ne hc (by decide)
  have h7 : c ≠ '\x0b' := digit_ne hc (by decide)
  have h8 : c ≠ '\x0c' := digit_ne hc (by decide)
  simp [phoneSep, isPySpace, h1, h2, h3, h4, h5, h6, h7, h8]

theorem cardSep_nondigit : ∀ c, isDigitChar c → cardSep c = false := by
  intro c hc
  have h1 : c ≠ ' ' := digit_ne hc (by decide)
  have h2 : c ≠ '-' := digit_ne hc (by decide)
  simp [cardSep, h1, h2]

theorem chr_nondigit (ch : Char) (hch : isDigitChar ch = false) :
    ∀ c, isDigitChar c → (decide (c = ch) : Bool) = false := by
  intro c hc
  simp [digit_ne hc hch]

/-- On all-digit input a single digit class consumes exactly one digit. -/
theorem cls_digit_unit (prev : Option Char) (input : List Char) (st)
    (had : allDigits input) (h : st ∈ matchRE (.cls isDigitChar) prev input) :
    ∃ c rest, input = c :: rest ∧ isDigitChar c ∧ st = (some c, rest) := by
  obtain ⟨c, rest, hin, hc, hst⟩ := matchRE_cls_mem isDigitChar prev input st h
  exact ⟨c, rest, hin, hc, hst⟩

/-- On all-digit input the card group `\d[ -]*?` consumes exactly one
digit (the separator star can consume nothing). -/
theorem cardGroup_unit (prev : Option Char) (input : List Char) (st)
    (had : allDigits input) (h : st ∈ matchRE cardGroup prev input) :
    ∃ c rest, input = c :: rest ∧ isDigitChar c ∧ st = (some c, rest) := by
  rw [cardGroup, matchRE_seq_mem] at h
  obtain ⟨st1, h1, h2⟩ := h
  obtain ⟨c, rest, hin, hc, hst1⟩ := matchRE_cls_mem isDigitChar prev input st1 h1
  subst hst1 hin
  have hrest : allDigits rest := fun d hd => had d (List.mem_cons_of_mem c hd)
  simp only [matchRE, starSplits_nondigit cardSep cardSep_nondigit (some c) rest hrest,
    List.mem_singleton] at h2
  exact ⟨c, rest, rfl, hc, h2⟩

/-- On all-digit input, `n` copies of a unit-consuming group consume
exactly `n` digits, ending on a digit when `n > 0`. -/
theorem copies_unit_mem (g : RE)
    (hg : ∀ prev input st, allDigits input → st ∈ matchRE g prev input →
      ∃ c rest, input = c :: rest ∧ isDigitChar c ∧ st = (some c, rest)) :
    ∀ (n : Nat) (prev : Option Char) (input : List Char) st,
      allDigits input → st ∈ matchRE (copies g n) prev input →
      input.length = st.2.length + n ∧ st.2 <:+ input ∧
      (0 < n → ∃ c, st.1 = some c ∧ isDigitChar c) ∧
      (n = 0 → st = (prev, input)) := by
  intro n
  induction n with
  | zero =>
    intro prev input st had h
    simp only [copies, matchRE, List.mem_singleton] at h
    subst h
    exact ⟨rfl, List.suffix_refl input, fun h0 => absurd h0 (by omega), fun _ => rfl⟩
  | succ n ih =>
    intro prev input st had h
    rw [copies, matchRE_seq_mem] at h
    obtain ⟨st1, h1, h2⟩ := h
    obtain ⟨c, rest, hin, hc, hst1⟩ := hg prev input st1 had h1
    subst hst1 hin
    have hrest : allDigits rest := fun d hd => had d (List.mem_cons_of_mem c hd)
    obtain ⟨hlen, hsuf, hdig, hzero⟩ := ih (some c) rest st hrest h2
    refine ⟨by simpa using by omega, hsuf.trans (List.suffix_cons c rest), fun _ => ?_, fun h0 => absurd h0 (by omega)⟩
    rcases Nat.eq_zero_or_pos n with h0 | h0
    · subst h0
      rw [hzero rfl]
      exact ⟨c, rfl, hc⟩
    · exact hdig h0

/-- No all-digit text matches the email pattern at any position: the
mandatory `@` cannot be consumed. -/
theorem matchRE_email_empty (prev : Option Char) (input : List Char)
    (had : allDigits input) : matchRE emailRE prev input = [] := by
  rw [List.eq_nil_iff_forall_not_mem]
  intro st h
  rw [emailRE] at h
  simp only [seqs] at h
  rw [matchRE_seq_mem] at h
  obtain ⟨st1, h1, h2⟩ := h
  obtain ⟨hst1, _⟩ := matchRE_wb_mem prev input st1 h1
  subst hst1
  rw [matchRE_seq_mem] at h2
  obtain ⟨st2, h21, h22⟩ := h2
  have hsuf := matchRE_suffix _ _ _ st2 h21
  have had2 : allDigits st2.2 := allDigits_of_suffix hsuf had
  rw [matchRE_seq_mem] at h22
  obtain ⟨st3, h31, _⟩ := h22
  rw [chr, matchRE_cls_nondigit _ (chr_nondigit '@' (by decide)) _ _ had2] at h31
  exact absurd h31 (List.not_mem_nil st3)

theorem searchAux_email_false : ∀ (input : List Char) (prev : Option Char),
    allDigits input → searchAux emailRE prev input = false := by
  intro input
  induction input with
  | nil =>
    intro prev had
    simp [searchAux, matchRE_email_empty prev [] had]
  | cons c rest ih =>
    intro prev had
    have hrest : allDigits rest := fun d hd => had d (List.mem_cons_of_mem c hd)
    simp [searchAux, matchRE_email_empty prev (c :: rest) had, ih (some c) hrest]

/-- One optional card group after a digit: consumes at most one digit
and still ends on a digit. -/
theorem opt_cardGroup_step (prev : Option Char) (input : List Char) (st)
    (had : allDigits input) (hprev : ∃ c, prev = some c ∧ isDigitChar c)
    (h : st ∈ matchRE (.opt cardGroup) prev input) :
    input.length ≤ st.2.length + 1 ∧ st.2 <:+ input ∧
      ∃ c, st.1 = some c ∧ isDigitChar c := by
  rw [matchRE_opt_mem] at h
  rcases h with h | h
  · subst h
    exact ⟨by show input.length ≤ input.length + 1; omega, List.suffix_refl _, hprev⟩
  · obtain ⟨c, rest, hin, hc, hst⟩ := cardGroup_unit prev input st had h
    subst hst
    subst hin
    exact ⟨by simp, List.suffix_cons c rest, ⟨c, rfl, hc⟩⟩

/-- No text of 17 or more digits (and nothing but digits) matches the
card pattern: the run is longer than 16 digits, so the trailing `\b`
always falls between two digits. -/
theorem matchRE_card_empty (prev : Option Char) (input : List Char)
    (had : allDigits input)
    (h : (prev = none ∧ 17 ≤ input.length) ∨ ∃ c, prev = some c ∧ isDigitChar c) :
    matchRE cardRE prev input = [] := by
  rw [List.eq_nil_iff_forall_not_mem]
  intro st hmem
  rw [cardRE] at hmem
  simp only [seqs] at hmem
  rw [matchRE_seq_mem] at hmem
  obtain ⟨st1, h1, h2⟩ := hmem
  obtain ⟨hst1, hb⟩ := matchRE_wb_mem prev input st1 h1
  subst hst1
  rw [matchRE_seq_mem] at h2
  obtain ⟨st2, h21, h22⟩ := h2
  obtain ⟨hlen2, hsuf2, hdig2, -⟩ :=
    copies_unit_mem cardGroup cardGroup_unit 13 prev input st2 had h21
  have had2 : allDigits st2.2 := allDigits_of_suffix hsuf2 had
  rcases h with ⟨hprev, hlen⟩ | ⟨c, hprev, hc⟩
  swap
  · -- a digit precedes the match position: the leading \b fails unless
    -- the input is empty, where the 13 mandatory digits cannot fit
    cases input with
    | nil =>
      simp at hlen2
    | cons d rest =>
      subst hprev
      rw [atBoundary_digit_digit hc (had d (List.mem_cons_self d rest)) rest] at hb
      exact Bool.false_ne_true hb
  · -- match at the very start: at most 16 digits can be consumed, so
    -- the trailing \b sits between two digits and fails
    rw [matchRE_seq_mem] at h22
    obtain ⟨st3, h31, h32⟩ := h22
    obtain ⟨hlen3, hsuf3, hdig3⟩ :=
      opt_cardGroup_step st2.1 st2.2 st3 had2 (hdig2 (by omega)) h31
    have had3 : allDigits st3.2 := allDigits_of_suffix hsuf3 had2
    rw [matchRE_seq_mem] at h32
    obtain ⟨st4, h41, h42⟩ := h32
    obtain ⟨hlen4, hsuf4, hdig4⟩ := opt_cardGroup_step st3.1 st3.2 st4 had3 hdig3 h41
    have had4 : allDigits st4.2 := allDigits_of_suffix hsuf4 had3
    rw [matchRE_seq_mem] at h42
    obtain ⟨st5, h51, h52⟩ := h42
    obtain ⟨hlen5, hsuf5, hdig5⟩ := opt_cardGroup_step st4.1 st4.2 st5 had4 hdig4 h51
    have had5 : allDigits st5.2 := allDigits_of_suffix hsuf5 had4
    obtain ⟨-, hb5⟩ := matchRE_wb_mem st5.1 st5.2 st h52
    obtain ⟨c5, hc5, hc5d⟩ := hdig5
    cases h5 : st5.2 with
    | nil =>
      rw [h5] at hlen5
      simp at hlen5
      omega
    | cons d rest =>
      rw [h5] at had5 hb5
      rw [hc5, atBoundary_digit_digit hc5d (had5 d (List.mem_cons_self d rest)) rest] at hb5
      exact Bool.false_ne_true hb5

/-- An optional non-digit character class consumes nothing on all-digit
input. -/
theorem opt_nondigit_zero (p : Char → Bool)
    (hp : ∀ c, isDigitChar c → p c = false) (prev : Option Char)
    (input : List Char) (st) (had : allDigits input)
    (h : st ∈ matchRE (.opt (.cls p)) prev input) :
    st.1 = prev ∧ st.2 = input := by
  rw [matchRE_opt_mem] at h
  rcases h with h | h
  · rw [h]
    exact ⟨rfl, rfl⟩
  · rw [matchRE_cls_nondigit p hp prev input had] at h
    exact absurd h (List.not_mem_nil st)

/-- An optional digit class consumes at most one character. -/
theorem opt_digit_step (prev : Option Char) (input : List Char) (st)
    (h : st ∈ matchRE (.opt (.cls isDigitChar)) prev input) :
    input.length ≤ st.2.length + 1 ∧ st.2 <:+ input := by
  rw [matchRE_opt_mem] at h
  rcases h with h | h
  · rw [h]
    exact ⟨Nat.le_succ _, List.suffix_refl _⟩
  · obtain ⟨c, rest, hin, hc, hst⟩ := matchRE_cls_mem _ _ _ _ h
    subst hst
    subst hin
    exact ⟨by simp, List.suffix_cons c rest⟩

/-- On all-digit input the optional country-code group consumes at most
three characters. -/
theorem phoneCountry_bound (prev : Option Char) (input : List Char) (st)
    (had : allDigits input) (h : st ∈ matchRE phoneCountry prev input) :
    input.length ≤ st.2.length + 3 ∧ st.2 <:+ input := by
  rw [phoneCountry] at h
  simp only [seqs] at h
  rw [matchRE_seq_mem] at h
  obtain ⟨s1, h1, h⟩ := h
  obtain ⟨-, hs1⟩ := opt_nondigit_zero _ (chr_nondigit '+' (by decide)) prev input s1 had h1
  rw [hs1] at h
  rw [matchRE_seq_mem] at h
  obtain ⟨s2, h2, h⟩ := h
  obtain ⟨c, rest, hin, hc, hs2⟩ := matchRE_cls_mem _ _ _ _ h2
  have hs2b : s2.2 = rest := by rw [hs2]
  rw [hs2b] at h
  subst hin
  have hrest : allDigits rest := fun d hd => had d (List.mem_cons_of_mem c hd)
  rw [matchRE_seq_mem] at h
  obtain ⟨s3, h3, h⟩ := h
  obtain ⟨hl3, hsuf3⟩ := opt_digit_step _ _ _ h3
  have had3 := allDigits_of_suffix hsuf3 hrest
  rw [matchRE_seq_mem] at h
  obtain ⟨s4, h4, h⟩ := h
  obtain ⟨hl4, hsuf4⟩ := opt_digit_step _ _ _ h4
  have had4 := allDigits_of_suffix hsuf4 had3
  obtain ⟨-, hst2⟩ := opt_nondigit_zero _ phoneSep_nondigit _ _ st had4 h
  rw [hst2]
  constructor
  · simp only [List.length_cons]
    omega
  · exact (hsuf4.trans hsuf3).trans (List.suffix_cons c rest)

/-- On all-digit input the optional area-code group consumes at most
three characters. -/
theorem phoneArea_bound (prev : Option Char) (input : List Char) (st)
    (had : allDigits input) (h : st ∈ matchRE phoneArea prev input) :
    input.length ≤ st.2.length + 3 ∧ st.2 <:+ input := by
  rw [phoneArea] at h
  simp only [seqs] at h
  rw [matchRE_seq_mem] at h
  obtain ⟨s1, h1, h⟩ := h
  obtain ⟨-, hs1⟩ := opt_nondigit_zero _ (chr_nondigit '(' (by decide)) prev input s1 had h1
  rw [hs1] at h
  rw [matchRE_seq_mem] at h
  obtain ⟨s2, h2, h⟩ := h
  obtain ⟨hl2, hsuf2, -, -⟩ := copies_unit_mem _ cls_digit_unit 3 _ input s2 had h2
  have had2 := allDigits_of_suffix hsuf2 had
  rw [matchRE_seq_mem] at h
  obtain ⟨s3, h3, h⟩ := h
  obtain ⟨-, hs3⟩ := opt_nondigit_zero _ (chr_nondigit ')' (by decide)) _ _ s3 had2 h3
  rw [hs3] at h
  obtain ⟨-, hst2⟩ := opt_nondigit_zero _ phoneSep_nondigit _ _ st had2 h
  rw [hst2]
  exact ⟨by omega, hsuf2⟩

/-- No all-digit text of 14 or more digits matches the phone pattern:
at most 13 characters can be consumed, yet both `\b` anchors force the
match to cover the whole run. -/
theorem matchRE_phone_empty (prev : Option Char) (input : List Char)
    (had : allDigits input)
    (h : (prev = none ∧ 14 ≤ input.length) ∨ ∃ c, prev = some c ∧ isDigitChar c) :
    matchRE phoneRE prev input = [] := by
  rw [List.eq_nil_iff_forall_not_mem]
  intro st hmem
  rw [phoneRE] at hmem
  simp only [seqs] at hmem
  rw [matchRE_seq_mem] at hmem
  obtain ⟨s1, h1, hm⟩ := hmem
  obtain ⟨hs1, hb⟩ := matchRE_wb_mem prev input s1 h1
  subst hs1
  rw [matchRE_seq_mem] at hm
  obtain ⟨s2, h2, hm⟩ := hm
  rcases h with ⟨hprev, hlen⟩ | ⟨c0, hprev, hc0⟩
  swap
  · -- a digit precedes the match position
    cases input with
    | nil =>
      -- everything before the mandatory 3-digit run consumes nothing
      have hsuf2 : s2.2 <:+ ([] : List Char) := matchRE_suffix _ _ _ s2 h2
      rw [List.suffix_nil] at hsuf2
      rw [matchRE_seq_mem] at hm
      obtain ⟨s3, h3, hm⟩ := hm
      have hsuf3 : s3.2 <:+ s2.2 := matchRE_suffix _ _ _ s3 h3
      rw [hsuf2, List.suffix_nil] at hsuf3
      rw [matchRE_seq_mem] at hm
      obtain ⟨s4, h4, hm⟩ := hm
      have had3 : allDigits s3.2 := by
        rw [hsuf3]
        exact fun d hd => absurd hd (List.not_mem_nil d)
      obtain ⟨hl4, -, -, -⟩ := copies_unit_mem _ cls_digit_unit 3 _ _ s4 had3 h4
      rw [hsuf3] at hl4
      simp at hl4
    | cons d rest =>
      subst hprev
      rw [atBoundary_digit_digit hc0 (had d (List.mem_cons_self d rest)) rest] at hb
      exact Bool.false_ne_true hb
  · -- match at the very start of an all-digit run of length ≥ 14
    have hstep2 : input.length ≤ s2.2.length + 3 ∧ s2.2 <:+ input := by
      rw [matchRE_opt_mem] at h2
      rcases h2 with h2 | h2
      · rw [h2]
        exact ⟨Nat.le_add_right _ 3, List.suffix_refl _⟩
      · exact phoneCountry_bound prev input s2 had h2
    obtain ⟨hl2, hsuf2⟩ := hstep2
    have had2 := allDigits_of_suffix hsuf2 had
    rw [matchRE_seq_mem] at hm
    obtain ⟨s3, h3, hm⟩ := hm
    have hstep3 : s2.2.length ≤ s3.2.length + 3 ∧ s3.2 <:+ s2.2 := by
      rw [matchRE_opt_mem] at h3
      rcases h3 with h3 | h3
      · rw [h3]
        exact ⟨Nat.le_add_right _ 3, List.suffix_refl _⟩
      · exact phoneArea_bound s2.1 s2.2 s3 had2 h3
    obtain ⟨hl3, hsuf3⟩ := hstep3
    have had3 := allDigits_of_suffix hsuf3 had2
    rw [matchRE_seq_mem] at hm
    obtain ⟨s4, h4, hm⟩ := hm
    obtain ⟨hl4, hsuf4, -, -⟩ := copies_unit_mem _ cls_digit_unit 3 _ _ s4 had3 h4
    have had4 := allDigits_of_suffix hsuf4 had3
    rw [matchRE_seq_mem] at hm
    obtain ⟨s5, h5, hm⟩ := hm
    obtain ⟨-, hs5⟩ := opt_nondigit_zero _ phoneSep_nondigit _ _ s5 had4 h5
    rw [hs5] at hm
    rw [matchRE_seq_mem] at hm
    obtain ⟨s6, h6, hm⟩ := hm
    obtain ⟨hl6, hsuf6, hdig6, -⟩ := copies_unit_mem _ cls_digit_unit 4 _ _ s6 had4 h6
    have had6 := allDigits_of_suffix hsuf6 had4
    obtain ⟨-, hb6⟩ := matchRE_wb_mem s6.1 s6.2 st hm
    obtain ⟨c6, hc6, hc6d⟩ := hdig6 (by omega)
    cases h6e : s6.2 with
    | nil =>
      rw [h6e] at hl6
      simp at hl6
      omega
    | cons d rest =>
      rw [h6e] at had6 hb6
      rw [hc6, atBoundary_digit_digit hc6d (had6 d (List.mem_cons_self d rest)) rest] at hb6
      exact Bool.false_ne_true hb6

theorem searchAux_phone_false : ∀ (input : List Char) (prev : Option Char),
    allDigits input →
    ((prev = none ∧ 14 ≤ input.length) ∨ ∃ c, prev = some c ∧ isDigitChar c) →
    searchAux phoneRE prev input = false := by
  intro input
  induction input with
  | nil =>
    intro prev had h
    simp [searchAux, matchRE_phone_empty prev [] had h]
  | cons c rest ih =>
    intro prev had h
    have hrest : allDigits rest := fun d hd => had d (List.mem_cons_of_mem c hd)
    have hc : isDigitChar c := had c (List.mem_cons_self c rest)
    simp [searchAux, matchRE_phone_empty prev (c :: rest) had h,
      ih (some c) hrest (Or.inr ⟨c, rfl, hc⟩)]

theorem searchAux_card_false : ∀ (input : List Char) (prev : Option Char),
    allDigits input →
    ((prev = none ∧ 17 ≤ input.length) ∨ ∃ c, prev = some c ∧ isDigitChar c) →
    searchAux cardRE prev input = false := by
  intro input
  induction input with
  | nil =>
    intro prev had h
    simp [searchAux, matchRE_card_empty prev [] had h]
  | cons c rest ih =>
    intro prev had h
    have hrest : allDigits rest := fun d hd => had d (List.mem_cons_of_mem c hd)
    have hc : isDigitChar c := had c (List.mem_cons_self c rest)
    simp [searchAux, matchRE_card_empty prev (c :: rest) had h,
      ih (some c) hrest (Or.inr ⟨c, rfl, hc⟩)]

/-- C1: ground-truth enforcement.  For every non-empty caller input `q`
and every structurally valid record `out` the backend returns, the
record after the correction step satisfies
`original_question.strip() == q.strip()`; when the echoed field differs
from `q` after stripping both, it is replaced with the caller's literal
input `q` (not the stripped form) and nothing else changes; otherwise
the record is returned unchanged. -/
theorem ground_truth_enforced (q : String) (hq : q ≠ "") (out : QuestionReview) :
    pyStrip (enforceGroundTruth q out).original_question = pyStrip q ∧
    (pyStrip out.original_question ≠ pyStrip q →
      enforceGroundTruth q out = { out with original_question := q }) ∧
    (pyStrip out.original_question = pyStrip q → enforceGroundTruth q out = out) := by
  unfold enforceGroundTruth
  by_cases h : pyStrip out.original_question = pyStrip q <;> simp [h]

/-- Witness for C1 at the concrete input `"hi"` and a backend record
echoing a different question. -/
theorem ground_truth_enforced_witness :
    pyStrip (enforceGroundTruth "hi" reviewSample).original_question = pyStrip "hi" ∧
    (pyStrip reviewSample.original_question ≠ pyStrip "hi" →
      enforceGroundTruth "hi" reviewSample =
        { reviewSample with original_question := "hi" }) ∧
    (pyStrip reviewSample.original_question = pyStrip "hi" →
      enforceGroundTruth "hi" reviewSample = reviewSample) :=
  ground_truth_enforced "hi" (by decide) reviewSample

/-- C2: score validation raises iff a value is out of range and never
clamps.  Constructing `ScoresModel` from four integers succeeds exactly
when each lies in [0, 10], and on success every stored field equals the
supplied value. -/
theorem scores_validation_exact (c s a f : Int) :
    mkScoresModel c s a f =
      if 0 ≤ c ∧ c ≤ 10 ∧ 0 ≤ s ∧ s ≤ 10 ∧ 0 ≤ a ∧ a ≤ 10 ∧ 0 ≤ f ∧ f ≤ 10
      then some { clarity := c, specificity := s, answerability := a, safety := f }
      else none := by
  unfold mkScoresModel validScore
  by_cases h1 : 0 ≤ c ∧ c ≤ 10 <;> by_cases h2 : 0 ≤ s ∧ s ≤ 10 <;>
    by_cases h3 : 0 ≤ a ∧ a ≤ 10 <;> by_cases h4 : 0 ≤ f ∧ f ≤ 10 <;>
    simp [h1, h2, h3, h4]

/-- C3 counterexample: schema validation accepts a record whose lists
have 7, 7 and 6 entries — the caps `len(missing_info) <= 6`,
`len(assumptions) <= 6`, `len(followups) <= 5` are not enforced by the
source models, so such a record is returned to the caller. -/
theorem list_caps_not_validated :
    (mkQuestionReview rawOverlong).isSome = true ∧
    (mkQuestionReview rawOverlong).map (fun r => r.missing_info.length) = some 7 ∧
    (mkQuestionReview rawOverlong).map (fun r => r.assumptions.length) = some 7 ∧
    (mkQuestionReview rawOverlong).map (fun r => r.followups.length) = some 6 :=
  ⟨rfl, rfl, rfl, rfl⟩

/-- C3 amended: the schema places no constraint on the three list
fields — validation succeeds or fails independently of their lengths
and stores them verbatim, so the ≤6/≤6/≤5 caps exist only in the
instruction text sent to the backend, not in validation. -/
theorem list_fields_unconstrained (raw : RawReview) (mi asm fu : List String) :
    mkQuestionReview { raw with missing_info := mi, assumptions := asm, followups := fu } =
      (mkQuestionReview raw).map
        (fun r => { r with missing_info := mi, assumptions := asm, followups := fu }) := by
  cases hd : parseDomain raw.domain <;>
  cases ht : parseQType raw.type <;>
  cases hs : mkScoresModel raw.clarity raw.specificity raw.answerability raw.safety <;>
  cases hr : mkRewritesModel raw.minimal raw.ideal <;>
  simp [mkQuestionReview, hd, ht, hs, hr, bind]

/-- C4: empty-input rejection before any backend contact.  With a
usable credential, when the CLI's argv joins and strips to the empty
string and the fallback interactive prompt also strips to empty, the
process exits via `SystemExit(1)` without any backend call; the
Streamlit handler on input that strips to empty warns and halts. -/
theorem empty_input_rejected (env_key secrets : Option String)
    (argv : List String) (interactive user_q : String)
    (hcli : truthy env_key = true) (hst : truthy (stKey secrets env_key) = true)
    (hargv : pyStrip (String.intercalate " " argv) = "")
    (hint : pyStrip interactive = "") (huq : pyStrip user_q = "") :
    cliProcess env_key argv interactive = .noQuestionExit ∧
    stProcess secrets env_key user_q = .warnAndHalt := by
  unfold cliProcess stProcess
  simp [hcli, hst, hargv, hint, huq]

/-- Witness for C4 at a whitespace-only argv, interactive input and
form input. -/
theorem empty_input_rejected_witness :
    cliProcess (some "sk-test") ["  ", ""] " \t " = .noQuestionExit ∧
    stProcess (some "sk-test") (some "sk-test") "  \n" = .warnAndHalt :=
  empty_input_rejected (some "sk-test") (some "sk-test") ["  ", ""] " \t " "  \n"
    (by decide) (by decide) (by decide) (by decide) (by decide)

/-- C5: the PII scanner on `"contact me at jane.doe@acme.com"` returns
exactly `["email"]` — the email tag and no phone or card-ish false
positive. -/
theorem email_example_scan :
    pii_scan "contact me at jane.doe@acme.com" = ["email"] := rfl

/-- C6: the PII scanner on `"card 4111 1111 1111 1111"` reports
`"card-ish"` — the 16 digits in space-separated groups of four are
recognized as a card-like run. -/
theorem card_example_scan :
    "card-ish" ∈ pii_scan "card 4111 1111 1111 1111" := by decide

/-- C7: rewrite length bound.  Every record that passes schema
validation stores the candidate's rewrite strings verbatim with
`minimal` and `ideal` each at most 280 code points; hence a candidate
with a longer rewrite string can never validate. -/
theorem rewrite_length_bound (raw : RawReview) (r : QuestionReview)
    (h : mkQuestionReview raw = some r) :
    r.rewrites.minimal.length ≤ 280 ∧ r.rewrites.ideal.length ≤ 280 ∧
    r.rewrites.minimal = raw.minimal ∧ r.rewrites.ideal = raw.ideal := by
  unfold mkQuestionReview at h
  simp only [bind, Option.bind_eq_some, Option.pure_def, Option.some.injEq] at h
  obtain ⟨d, hd, t, ht, sc, hsc, rw, hrw, hr⟩ := h
  unfold mkRewritesModel validRewrite at hrw
  simp only [bind, Option.bind_eq_some, Option.pure_def, Option.some.injEq] at hrw
  obtain ⟨m, hm, i, hi, hrw⟩ := hrw
  subst hr
  subst hrw
  split_ifs at hm hi
  simp_all

/-- Witness for C7 at the concrete valid candidate `rawSample`. -/
theorem rewrite_length_bound_witness :
    reviewSample.rewrites.minimal.length ≤ 280 ∧
    reviewSample.rewrites.ideal.length ≤ 280 ∧
    reviewSample.rewrites.minimal = rawSample.minimal ∧
    reviewSample.rewrites.ideal = rawSample.ideal :=
  rewrite_length_bound rawSample reviewSample (by rfl)

/-- C8: a missing credential is fatal at startup.  When the CLI's
environment key is falsy (`None` or empty), and likewise the Streamlit
key resolved from secrets with environment fallback, both front ends
stop with the configuration failure regardless of any later input, so
no review invocation or backend request can occur in that run. -/
theorem missing_credential_fatal (env_key secrets : Option String)
    (argv : List String) (interactive user_q : String)
    (hcli : truthy env_key = false) (hst : truthy (stKey secrets env_key) = false) :
    cliProcess env_key argv interactive = .configError ∧
    stProcess secrets env_key user_q = .configError := by
  unfold cliProcess stProcess
  simp [hcli, hst]

/-- Witness for C8 with the credential absent from environment and
secrets, and a non-empty question that is nevertheless never sent. -/
theorem missing_credential_fatal_witness :
    cliProcess none ["a", "question"] "another question" = .configError ∧
    stProcess none none "a question" = .configError :=
  missing_credential_fatal none none ["a", "question"] "another question"
    "a question" (by decide) (by decide)

/-- C9: scanner output invariant.  For every input text the scanner
returns a duplicate-free sublist of `["email", "phone", "card-ish"]` in
that fixed order — so at most 3 tags, and never `"unsafe"` or
`"vague"`, which can only originate from the generation step. -/
theorem scanner_tag_invariant (text : String) :
    List.Sublist (pii_scan text) ["email", "phone", "card-ish"] ∧
    (pii_scan text).Nodup ∧ (pii_scan text).length ≤ 3 ∧
    "unsafe" ∉ pii_scan text ∧ "vague" ∉ pii_scan text := by
  unfold pii_scan
  cases reSearch emailRE text <;> cases reSearch phoneRE text <;>
    cases reSearch cardRE text <;> simp

/-- C10: a run of 17 consecutive digits is not flagged.  For every
string of exactly 17 decimal digits (e.g. `"12345678901234567"`) the
scanner returns the empty list — in particular no `"card-ish"`, because
the card pattern's word-bounded run of 13–16 digits cannot end inside
an unbroken digit run longer than 16. -/
theorem seventeen_digit_run_not_flagged (ds : List Char)
    (hlen : ds.length = 17) (hds : ∀ c ∈ ds, isDigitChar c) :
    pii_scan (String.mk ds) = [] := by
  have he : reSearch emailRE (String.mk ds) = false :=
    searchAux_email_false ds none hds
  have hp : reSearch phoneRE (String.mk ds) = false :=
    searchAux_phone_false ds none hds (Or.inl ⟨rfl, by omega⟩)
  have hc : reSearch cardRE (String.mk ds) = false :=
    searchAux_card_false ds none hds (Or.inl ⟨rfl, by omega⟩)
  simp [pii_scan, he, hp, hc]

/-- Witness for C10 at the concrete 17-digit string
`"12345678901234567"`. -/
theorem seventeen_digit_run_not_flagged_witness :
    "12345678901234567".data.length = 17 ∧
    (∀ c ∈ "12345678901234567".data, isDigitChar c) ∧
    pii_scan (String.mk "12345678901234567".data) = [] :=
  ⟨by decide, by decide,
   seventeen_digit_run_not_flagged "12345678901234567".data
     (by decide) (by decide)⟩

end AskBetter
